import Mathlib

/-!
Shallow embedding of `src/app.py` (Mergington High School API).

The Python module keeps two in-memory insertion-ordered dictionaries
(`activities : name -> activity descriptor` and
`students : student_id -> student record`) and persists them to two CSV
files.  We model a Python `dict` as an association list that preserves
insertion order: updating an existing key replaces the value in place,
inserting a fresh key appends at the end, `del` removes the entry.
CSV parsing is out of scope (the spec treats it as a black box), so a
file is `Option (List (List String))`: `none` is a missing file and each
row is its list of fields.  An I/O failure raised while reading row
`k` is modelled by the `failAfter` argument: the Python code catches the
exception, so the rows read before the failure stay applied.
`HTTPException` is modelled by `ApiResult.httpError status detail`; a
`save` failure is the `saveOk := false` argument of a mutating endpoint
(the 500 detail string wraps the underlying I/O error, which we keep
abstract as a fixed message).
-/

structure Activity where
  description : String
  schedule : String
  max_participants : Nat
  participants : List String
deriving DecidableEq, Repr

structure Student where
  student_id : String
  name : String
  email : String
deriving DecidableEq, Repr

structure AppState where
  activities : List (String × Activity)
  students : List (String × Student)
deriving DecidableEq, Repr

/-- Python `m[k]` / `m.get(k)`: first (unique) binding of `k`. -/
def dictGet? {α : Type} (m : List (String × α)) (k : String) : Option α :=
  match m with
  | [] => none
  | p :: rest => if p.1 = k then some p.2 else dictGet? rest k

/-- Python `k in m`. -/
def containsKey {α : Type} (m : List (String × α)) (k : String) : Bool :=
  match m with
  | [] => false
  | p :: rest => (p.1 == k) || containsKey rest k

/-- Python `m[k] = v`: replace in place if present, else append (dicts keep
insertion order). -/
def dictSet {α : Type} (m : List (String × α)) (k : String) (v : α) :
    List (String × α) :=
  match m with
  | [] => [(k, v)]
  | p :: rest => if p.1 = k then (k, v) :: rest else p :: dictSet rest k v

/-- Python `del m[k]`: drop the (unique) binding of `k`. -/
def dictDel {α : Type} (m : List (String × α)) (k : String) :
    List (String × α) :=
  match m with
  | [] => []
  | p :: rest => if p.1 = k then rest else p :: dictDel rest k

/-- Python `l.remove(x)`: delete the first occurrence (the endpoints only
call it when `x` is present, so the total function loses nothing). -/
def removeFirst (l : List String) (x : String) : List String :=
  match l with
  | [] => []
  | y :: ys => if y = x then ys else y :: removeFirst ys x

/-- Outcome of an endpoint call: JSON message, or `HTTPException`. -/
inductive ApiResult where
  | ok (message : String)
  | httpError (status : Nat) (detail : String)
deriving DecidableEq, Repr

/-- The seeded `activities` dictionary from `app.py`. -/
def chessClub : Activity :=
  ⟨"Learn strategies and compete in chess tournaments",
   "Fridays, 3:30 PM - 5:00 PM", 12,
   ["michael@mergington.edu", "daniel@mergington.edu"]⟩

def programmingActivity : Activity :=
  ⟨"Learn programming fundamentals and build software projects",
   "Tuesdays and Thursdays, 3:30 PM - 4:30 PM", 20,
   ["emma@mergington.edu", "sophia@mergington.edu"]⟩

def gymActivity : Activity :=
  ⟨"Physical education and sports activities",
   "Mondays, Wednesdays, Fridays, 2:00 PM - 3:00 PM", 30,
   ["john@mergington.edu", "olivia@mergington.edu"]⟩

def soccerTeam : Activity :=
  ⟨"Join the school soccer team and compete in matches",
   "Tuesdays and Thursdays, 4:00 PM - 5:30 PM", 22,
   ["liam@mergington.edu", "noah@mergington.edu"]⟩

def basketballTeam : Activity :=
  ⟨"Practice and play basketball with the school team",
   "Wednesdays and Fridays, 3:30 PM - 5:00 PM", 15,
   ["ava@mergington.edu", "mia@mergington.edu"]⟩

def artClub : Activity :=
  ⟨"Explore your creativity through painting and drawing",
   "Thursdays, 3:30 PM - 5:00 PM", 15,
   ["amelia@mergington.edu", "harper@mergington.edu"]⟩

def dramaClub : Activity :=
  ⟨"Act, direct, and produce plays and performances",
   "Mondays and Wednesdays, 4:00 PM - 5:30 PM", 20,
   ["ella@mergington.edu", "scarlett@mergington.edu"]⟩

def mathClub : Activity :=
  ⟨"Solve challenging problems and participate in math competitions",
   "Tuesdays, 3:30 PM - 4:30 PM", 10,
   ["james@mergington.edu", "benjamin@mergington.edu"]⟩

def debateTeam : Activity :=
  ⟨"Develop public speaking and argumentation skills",
   "Fridays, 4:00 PM - 5:30 PM", 12,
   ["charlotte@mergington.edu", "henry@mergington.edu"]⟩

def seededActivities : List (String × Activity) :=
  [("Chess Club", chessClub),
   ("Programming Class", programmingActivity),
   ("Gym Class", gymActivity),
   ("Soccer Team", soccerTeam),
   ("Basketball Team", basketballTeam),
   ("Art Club", artClub),
   ("Drama Club", dramaClub),
   ("Math Club", mathClub),
   ("Debate Team", debateTeam)]

/-- Process state right after the module-level seed data is built:
the nine seeded activities, no registered students. -/
def seededState : AppState := ⟨seededActivities, []⟩

def STUDENT_CAPACITY : Nat := 100

/-- The participants list of activity `a`, if `a` is a key. -/
def participantsOf (st : AppState) (a : String) : Option (List String) :=
  (dictGet? st.activities a).map Activity.participants

/-- One iteration of the `load_persistence` reader loop: skip a row with
fewer than two fields, else take `row[0], row[1]`, keep the row only if
the activity name is a key, and avoid duplicate emails. -/
def loadRow (st : AppState) (row : List String) : AppState :=
  match row with
  | activity_name :: email :: _ =>
    match dictGet? st.activities activity_name with
    | some act =>
      if email ∈ act.participants then st
      else
        let act2 := { act with participants := act.participants ++ [email] }
        { st with activities := dictSet st.activities activity_name act2 }
    | none => st
  | _ => st

/-- Model of `load_persistence()`: a missing file is an early return; an exception
raised after `k` rows is caught, keeping the rows already applied. -/
def load_persistence (st : AppState) (file : Option (List (List String)))
    (failAfter : Option Nat) : AppState :=
  match file with
  | none => st
  | some rows =>
    match failAfter with
    | none => List.foldl loadRow st rows
    | some k => List.foldl loadRow st (rows.take k)

/-- Model of `save_persistence()`: one CSV row `[name, email]` per participant, in
dictionary order then participant order. -/
def save_persistence (st : AppState) : List (List String) :=
  st.activities.flatMap (fun p => p.2.participants.map (fun e => [p.1, e]))

/-- One iteration of the `load_students` reader loop: skip a row with
fewer than three fields, else `students[sid] = Student(sid, name, email)`. -/
def loadStudentRow (m : List (String × Student)) (row : List String) :
    List (String × Student) :=
  match row with
  | sid :: nm :: em :: _ => dictSet m sid ⟨sid, nm, em⟩
  | _ => m

/-- Model of `load_students()`: same error tolerance as `load_persistence`. -/
def load_students (st : AppState) (file : Option (List (List String)))
    (failAfter : Option Nat) : AppState :=
  match file with
  | none => st
  | some rows =>
    match failAfter with
    | none => { st with students := List.foldl loadStudentRow st.students rows }
    | some k =>
      { st with students := List.foldl loadStudentRow st.students (rows.take k) }

/-- Endpoint `POST /activities/\x7bactivity_name\x7d/signup`.  `saveOk` is whether the
`save_persistence()` call inside succeeds; on failure the handler removes
the email it appended and re-raises as a 500. -/
def signup_for_activity (st : AppState) (activity_name email : String)
    (saveOk : Bool) : ApiResult × AppState :=
  match dictGet? st.activities activity_name with
  | none => (.httpError 404 "Activity not found", st)
  | some activity =>
    if email ∈ activity.participants then
      (.httpError 400 "Student is already signed up", st)
    else if activity.max_participants ≤ activity.participants.length then
      (.httpError 400 "Activity is full", st)
    else
      let added := { activity with participants := activity.participants ++ [email] }
      let st1 := { st with activities := dictSet st.activities activity_name added }
      if saveOk then
        (.ok ("Signed up " ++ email ++ " for " ++ activity_name), st1)
      else
        let reverted := { added with participants := removeFirst added.participants email }
        (.httpError 500 "Failed to save persistence",
         { st1 with activities := dictSet st1.activities activity_name reverted })

/-- Endpoint `DELETE /activities/\x7bactivity_name\x7d/unregister`.  On save failure the
handler appends the removed email back (at the end) and re-raises. -/
def unregister_from_activity (st : AppState) (activity_name email : String)
    (saveOk : Bool) : ApiResult × AppState :=
  match dictGet? st.activities activity_name with
  | none => (.httpError 404 "Activity not found", st)
  | some activity =>
    if email ∈ activity.participants then
      let removed := { activity with participants := removeFirst activity.participants email }
      let st1 := { st with activities := dictSet st.activities activity_name removed }
      if saveOk then
        (.ok ("Unregistered " ++ email ++ " from " ++ activity_name), st1)
      else
        let readded := { removed with participants := removed.participants ++ [email] }
        (.httpError 500 "Failed to save persistence",
         { st1 with activities := dictSet st1.activities activity_name readded })
    else
      (.httpError 400 "Student is not signed up for this activity", st)

/-- Endpoint `POST /students`.  On save failure the handler deletes the inserted
record and re-raises. -/
def register_student (st : AppState) (student_id nm email : String)
    (saveOk : Bool) : ApiResult × AppState :=
  if STUDENT_CAPACITY ≤ st.students.length then
    (.httpError 400 "Student registry is full", st)
  else if containsKey st.students student_id then
    (.httpError 400 "Student ID already registered", st)
  else if st.students.any (fun p => p.2.email == email) then
    (.httpError 400 "Email already registered", st)
  else
    let st1 := { st with students := dictSet st.students student_id ⟨student_id, nm, email⟩ }
    if saveOk then
      (.ok ("Registered student " ++ student_id), st1)
    else
      (.httpError 500 "Failed to save students",
       { st1 with students := dictDel st1.students student_id })

/-- Endpoint `GET /students`: `sorted(students.values(), key=lambda s: s.name)`.
Python's `sorted` is the stable sort by the key, which on lists is the
insertion sort by the key. -/
def list_students (st : AppState) : List Student :=
  List.insertionSort (fun a b => a.name ≤ b.name) (st.students.map Prod.snd)

/-- Endpoint `GET /students/available_seats`: `STUDENT_CAPACITY - len(students)`
(Python integer subtraction, so the value can go negative). -/
def available_seats (st : AppState) : Int :=
  (STUDENT_CAPACITY : Int) - st.students.length

/-! ### Dictionary and list lemmas -/

theorem containsKey_iff {α : Type} (m : List (String × α)) (k : String) :
    containsKey m k = true ↔ k ∈ m.map Prod.fst := by
  induction m with
  | nil => simp [containsKey]
  | cons p rest ih =>
    simp only [containsKey, List.map_cons, List.mem_cons, Bool.or_eq_true, beq_iff_eq, ih]
    constructor
    · rintro (h | h)
      · exact Or.inl h.symm
      · exact Or.inr h
    · rintro (h | h)
      · exact Or.inl h.symm
      · exact Or.inr h

theorem dictGet?_eq_none_iff {α : Type} (m : List (String × α)) (k : String) :
    dictGet? m k = none ↔ containsKey m k = false := by
  induction m with
  | nil => simp [dictGet?, containsKey]
  | cons p rest ih =>
    by_cases h : p.1 = k <;> simp [dictGet?, containsKey, h, ih]

theorem dictGet?_isSome_of_contains {α : Type} {m : List (String × α)} {k : String}
    (h : containsKey m k = true) : ∃ v, dictGet? m k = some v := by
  cases hv : dictGet? m k with
  | none =>
    rw [dictGet?_eq_none_iff, h] at hv
    exact Bool.noConfusion hv
  | some v => exact ⟨v, rfl⟩

theorem contains_of_dictGet? {α : Type} {m : List (String × α)} {k : String} {v : α}
    (h : dictGet? m k = some v) : containsKey m k = true := by
  cases hc : containsKey m k with
  | true => rfl
  | false =>
    rw [← dictGet?_eq_none_iff] at hc
    rw [h] at hc
    exact Option.noConfusion hc

theorem dictGet?_mem {α : Type} {m : List (String × α)} {k : String} {v : α}
    (h : dictGet? m k = some v) : (k, v) ∈ m := by
  induction m with
  | nil => cases h
  | cons p rest ih =>
    by_cases hp : p.1 = k
    · simp only [dictGet?, if_pos hp] at h
      injection h with h2
      rw [← h2, ← hp]
      exact List.mem_cons_self _ _
    · simp only [dictGet?, if_neg hp] at h
      exact List.mem_cons_of_mem _ (ih h)

theorem dictSet_eq_of_get {α : Type} {m : List (String × α)} {k : String} {v : α}
    (h : dictGet? m k = some v) : dictSet m k v = m := by
  induction m with
  | nil => cases h
  | cons p rest ih =>
    by_cases hp : p.1 = k
    · simp only [dictGet?, if_pos hp] at h
      injection h with h2
      simp only [dictSet, if_pos hp, ← h2, ← hp, if_true]
    · simp only [dictGet?, if_neg hp] at h
      simp only [dictSet, if_neg hp, ih h]

theorem dictGet?_dictSet_self {α : Type} (m : List (String × α)) (k : String) (v : α) :
    dictGet? (dictSet m k v) k = some v := by
  induction m with
  | nil => simp [dictSet, dictGet?]
  | cons p rest ih =>
    by_cases hp : p.1 = k <;> simp [dictSet, dictGet?, hp, ih]

theorem dictGet?_dictSet_ne {α : Type} (m : List (String × α)) {k b : String} (v : α)
    (h : b ≠ k) : dictGet? (dictSet m k v) b = dictGet? m b := by
  have hkb : ¬ (k = b) := fun hh => h hh.symm
  induction m with
  | nil => simp [dictSet, dictGet?, hkb]
  | cons p rest ih =>
    by_cases hp : p.1 = k
    · have hpb : ¬ (p.1 = b) := by rw [hp]; exact hkb
      simp only [dictSet, if_pos hp, dictGet?, if_neg hkb, if_neg hpb]
    · by_cases hb : p.1 = b
      · simp only [dictSet, if_neg hp, dictGet?, if_pos hb]
      · simp only [dictSet, if_neg hp, dictGet?, if_neg hb, ih]

theorem dictSet_dictSet {α : Type} (m : List (String × α)) (k : String) (v w : α) :
    dictSet (dictSet m k v) k w = dictSet m k w := by
  induction m with
  | nil => simp [dictSet]
  | cons p rest ih =>
    by_cases hp : p.1 = k <;> simp [dictSet, hp, ih]

theorem dictSet_of_not_contains {α : Type} {m : List (String × α)} {k : String}
    (v : α) (h : containsKey m k = false) : dictSet m k v = m ++ [(k, v)] := by
  induction m with
  | nil => simp [dictSet]
  | cons p rest ih =>
    simp only [containsKey, Bool.or_eq_false_iff, beq_eq_false_iff_ne, ne_eq] at h
    simp [dictSet, h.1, ih h.2]

theorem dictDel_append_of_not_contains {α : Type} {m : List (String × α)} {k : String}
    (v : α) (h : containsKey m k = false) : dictDel (m ++ [(k, v)]) k = m := by
  induction m with
  | nil => simp [dictDel]
  | cons p rest ih =>
    simp only [containsKey, Bool.or_eq_false_iff, beq_eq_false_iff_ne, ne_eq] at h
    simp [dictDel, h.1, ih h.2]

theorem keys_dictSet {α : Type} {m : List (String × α)} {k : String} (v : α)
    (h : containsKey m k = true) :
    (dictSet m k v).map Prod.fst = m.map Prod.fst := by
  induction m with
  | nil => simp [containsKey] at h
  | cons p rest ih =>
    by_cases hp : p.1 = k
    · simp [dictSet, hp]
    · simp only [containsKey, Bool.or_eq_true, beq_iff_eq, hp, false_or] at h
      simp [dictSet, hp, ih h]

theorem removeFirst_append_self {l : List String} {e : String} (h : e ∉ l) :
    removeFirst (l ++ [e]) e = l := by
  induction l with
  | nil => simp [removeFirst]
  | cons y ys ih =>
    simp only [List.mem_cons, not_or] at h
    have hne : ¬ (y = e) := fun hh => h.1 hh.symm
    simp [removeFirst, hne, ih h.2]

theorem removeFirst_perm {l : List String} {e : String} (h : e ∈ l) :
    List.Perm (removeFirst l e ++ [e]) l := by
  induction l with
  | nil => cases h
  | cons y ys ih =>
    by_cases hy : y = e
    · subst hy
      simp only [removeFirst, if_pos rfl]
      exact List.perm_append_singleton _ _
    · have hm : e ∈ ys := by
        rcases List.mem_cons.mp h with h1 | h2
        · exact absurd h1.symm hy
        · exact h2
      simpa [removeFirst, hy] using (ih hm).cons y

theorem isPrefixOf_exists {l1 l2 : List String} (h : l1.isPrefixOf l2 = true) :
    ∃ r, l2 = l1 ++ r := by
  induction l1 generalizing l2 with
  | nil => exact ⟨l2, rfl⟩
  | cons x xs ih =>
    cases l2 with
    | nil => exact Bool.noConfusion h
    | cons y ys =>
      simp only [List.isPrefixOf, Bool.and_eq_true, beq_iff_eq] at h
      rcases ih h.2 with ⟨r, hr⟩
      refine ⟨r, ?_⟩
      rw [← h.1, hr]
      rfl

/-! ### Lemmas about the persistence load loop -/

/-- Per-email action of the load loop on one activity's participants list:
skip if already present, else append. -/
def addE (l : List String) (e : String) : List String :=
  if e ∈ l then l else l ++ [e]

/-- The emails the row stream carries for activity `a`, in row order. -/
def emailsFor (a : String) (rows : List (List String)) : List String :=
  rows.filterMap (fun r =>
    match r with
    | n :: e :: _ => if n = a then some e else none
    | _ => none)

theorem emailsFor_nil (a : String) : emailsFor a [] = [] := rfl

theorem emailsFor_append (a : String) (r1 r2 : List (List String)) :
    emailsFor a (r1 ++ r2) = emailsFor a r1 ++ emailsFor a r2 := by
  simp [emailsFor, List.filterMap_append]

theorem loadRow_students (st : AppState) (r : List String) :
    (loadRow st r).students = st.students := by
  match r with
  | [] => rfl
  | [_] => rfl
  | n :: e :: rest =>
    simp only [loadRow]
    cases dictGet? st.activities n with
    | none => rfl
    | some act =>
      by_cases hm : e ∈ act.participants <;> simp [hm]

theorem loadRow_keys (st : AppState) (r : List String) :
    (loadRow st r).activities.map Prod.fst = st.activities.map Prod.fst := by
  match r with
  | [] => rfl
  | [_] => rfl
  | n :: e :: rest =>
    simp only [loadRow]
    cases hg : dictGet? st.activities n with
    | none => rfl
    | some act =>
      by_cases hm : e ∈ act.participants
      · simp [hm]
      · simp only [hm, if_false]
        exact keys_dictSet _ (contains_of_dictGet? hg)

theorem loadFold_keys (rows : List (List String)) (st : AppState) :
    (List.foldl loadRow st rows).activities.map Prod.fst
      = st.activities.map Prod.fst := by
  induction rows generalizing st with
  | nil => rfl
  | cons r rows ih =>
    rw [List.foldl_cons, ih, loadRow_keys]

theorem loadFold_students (rows : List (List String)) (st : AppState) :
    (List.foldl loadRow st rows).students = st.students := by
  induction rows generalizing st with
  | nil => rfl
  | cons r rows ih =>
    rw [List.foldl_cons, ih, loadRow_students]

theorem loadFold_get_none {a : String} (rows : List (List String)) (st : AppState)
    (h : dictGet? st.activities a = none) :
    dictGet? (List.foldl loadRow st rows).activities a = none := by
  rw [dictGet?_eq_none_iff] at h ⊢
  cases hc : containsKey (List.foldl loadRow st rows).activities a with
  | false => rfl
  | true =>
    rw [containsKey_iff, loadFold_keys, ← containsKey_iff, h] at hc
    exact Bool.noConfusion hc

/-- Master lemma for the load loop: folding the reader loop over a row
stream turns activity `a`'s participants into the `addE`-fold over the
emails the stream carries for `a`, and touches no other field. -/
theorem loadFold_get {a : String} (rows : List (List String)) (st : AppState)
    (act : Activity) (h : dictGet? st.activities a = some act) :
    ∃ act2, dictGet? (List.foldl loadRow st rows).activities a = some act2
      ∧ act2.participants = List.foldl addE act.participants (emailsFor a rows)
      ∧ act2.description = act.description
      ∧ act2.schedule = act.schedule
      ∧ act2.max_participants = act.max_participants := by
  induction rows generalizing st act with
  | nil => exact ⟨act, h, rfl, rfl, rfl, rfl⟩
  | cons r rows ih =>
    rw [List.foldl_cons]
    match r with
    | [] => exact ih st act h
    | [x] => exact ih st act h
    | n :: e :: rest =>
      by_cases hn : n = a
      · subst hn
        have he : emailsFor n ((n :: e :: rest) :: rows) = e :: emailsFor n rows := by
          simp [emailsFor]
        rw [he]
        by_cases hm : e ∈ act.participants
        · have hload : loadRow st (n :: e :: rest) = st := by
            simp [loadRow, h, hm]
          have ha : addE act.participants e = act.participants := by
            simp [addE, hm]
          rw [hload, List.foldl_cons, ha]
          exact ih st act h
        · have hload : loadRow st (n :: e :: rest) = { st with activities := dictSet st.activities n { act with participants := act.participants ++ [e] } } := by
            simp [loadRow, h, hm]
          have ha : addE act.participants e = act.participants ++ [e] := by
            simp [addE, hm]
          rw [hload, List.foldl_cons, ha]
          refine ih _ { act with participants := act.participants ++ [e] } ?_
          exact dictGet?_dictSet_self _ _ _
      · have he : emailsFor a ((n :: e :: rest) :: rows) = emailsFor a rows := by
          simp [emailsFor, hn]
        rw [he]
        cases hg : dictGet? st.activities n with
        | none =>
          have hload : loadRow st (n :: e :: rest) = st := by
            simp [loadRow, hg]
          rw [hload]
          exact ih st act h
        | some actn =>
          by_cases hm : e ∈ actn.participants
          · have hload : loadRow st (n :: e :: rest) = st := by
              simp [loadRow, hg, hm]
            rw [hload]
            exact ih st act h
          · have hload : loadRow st (n :: e :: rest) = { st with activities := dictSet st.activities n { actn with participants := actn.participants ++ [e] } } := by
              simp [loadRow, hg, hm]
            rw [hload]
            refine ih _ _ ?_
            have hna : a ≠ n := fun hh => hn hh.symm
            simpa [dictGet?_dictSet_ne _ _ hna] using h

theorem foldl_addE_of_subset {l : List String} {xs : List String}
    (h : ∀ x ∈ xs, x ∈ l) : List.foldl addE l xs = l := by
  induction xs with
  | nil => rfl
  | cons x xs ih =>
    have hx : x ∈ l := h x (List.mem_cons_self x xs)
    rw [List.foldl_cons]
    have ha : addE l x = l := by simp [addE, hx]
    rw [ha]
    exact ih (fun y hy => h y (List.mem_cons_of_mem x hy))

theorem foldl_addE_of_nodup {l r : List String} (h : (l ++ r).Nodup) :
    List.foldl addE l r = l ++ r := by
  induction r generalizing l with
  | nil => simp
  | cons e rs ih =>
    have hel : e ∉ l := by
      intro hmem
      exact (List.disjoint_of_nodup_append h) hmem (List.mem_cons_self e rs)
    rw [List.foldl_cons]
    have ha : addE l e = l ++ [e] := by simp [addE, hel]
    rw [ha]
    have h2 : ((l ++ [e]) ++ rs).Nodup := by
      rw [List.append_assoc]
      simpa using h
    rw [ih h2, List.append_assoc]
    rfl

theorem addE_nodup {l : List String} (e : String) (h : l.Nodup) :
    (addE l e).Nodup := by
  by_cases hm : e ∈ l
  · simpa [addE, hm] using h
  · simp [addE, hm, List.nodup_append, h, hm]

theorem foldl_addE_nodup {l : List String} (xs : List String) (h : l.Nodup) :
    (List.foldl addE l xs).Nodup := by
  induction xs generalizing l with
  | nil => exact h
  | cons x xs ih =>
    rw [List.foldl_cons]
    exact ih (addE_nodup x h)

theorem emailsFor_block {a n : String} (l : List String) :
    emailsFor a (l.map (fun e => [n, e])) = if n = a then l else [] := by
  induction l with
  | nil => simp [emailsFor]
  | cons e es ih =>
    by_cases hn : n = a
    · simp [emailsFor, hn] at ih ⊢
      exact ih
    · simp [emailsFor, hn] at ih ⊢

theorem emailsFor_saveList_of_not_mem {a : String} {m : List (String × Activity)}
    (h : a ∉ m.map Prod.fst) :
    emailsFor a (m.flatMap (fun p => p.2.participants.map (fun e => [p.1, e]))) = [] := by
  induction m with
  | nil => rfl
  | cons p rest ih =>
    simp only [List.map_cons, List.mem_cons, not_or] at h
    rw [List.flatMap_cons, emailsFor_append, emailsFor_block]
    have hn : ¬ (p.1 = a) := fun hh => h.1 hh.symm
    simp only [hn, if_false, List.nil_append]
    exact ih h.2

/-- The rows `save_persistence` writes carry, for each key `a` of a map
with distinct keys, exactly that activity's participants, in order. -/
theorem emailsFor_save {a : String} {m : List (String × Activity)} {act : Activity}
    (hnd : (m.map Prod.fst).Nodup) (h : dictGet? m a = some act) :
    emailsFor a (m.flatMap (fun p => p.2.participants.map (fun e => [p.1, e])))
      = act.participants := by
  induction m with
  | nil => cases h
  | cons p rest ih =>
    rw [List.flatMap_cons, emailsFor_append, emailsFor_block]
    simp only [List.map_cons, List.nodup_cons] at hnd
    by_cases hp : p.1 = a
    · simp only [dictGet?, if_pos hp] at h
      injection h with h2
      have hnot : a ∉ rest.map Prod.fst := by
        rw [← hp]
        exact hnd.1
      rw [if_pos hp, emailsFor_saveList_of_not_mem hnot, h2, List.append_nil]
    · simp only [dictGet?, if_neg hp] at h
      rw [if_neg hp, List.nil_append]
      exact ih hnd.2 h

/-- A fold over rows that ignores rows failing `p` equals the fold over
the `p`-filtered rows. -/
theorem foldl_eq_foldl_filter {β : Type} (f : β → List String → β)
    (p : List String → Bool) (hid : ∀ (s : β) (r : List String), p r = false → f s r = s) :
    ∀ (rows : List (List String)) (s : β),
      List.foldl f s rows = List.foldl f s (rows.filter p) := by
  intro rows
  induction rows with
  | nil => intro s; rfl
  | cons r rows ih =>
    intro s
    cases hp : p r with
    | false =>
      rw [List.foldl_cons, hid s r hp, List.filter_cons_of_neg (by simp [hp])]
      exact ih s
    | true =>
      rw [List.foldl_cons, List.filter_cons_of_pos (by simp [hp]), List.foldl_cons]
      exact ih (f s r)

/-! ### Concrete scenarios -/

/-- Sign one email up for Math Club with a succeeding save. -/
def mathSignup (st : AppState) (e : String) : AppState :=
  (signup_for_activity st "Math Club" e true).2

/-- Fill Math Club (capacity 10) with eight more signups. -/
def mathFull : AppState :=
  List.foldl mathSignup seededState
    ["m1@x.edu", "m2@x.edu", "m3@x.edu", "m4@x.edu",
     "m5@x.edu", "m6@x.edu", "m7@x.edu", "m8@x.edu"]

/-- Both seeded Math Club members unregister, two new students take the
spots; every operation persists successfully. -/
def mathRefilled : AppState :=
  mathSignup (mathSignup
    (unregister_from_activity
      (unregister_from_activity mathFull "Math Club" "james@mergington.edu" true).2
      "Math Club" "benjamin@mergington.edu" true).2
    "m9@x.edu") "m10@x.edu"

/-- Process restart: the file `save_persistence` wrote for `mathRefilled`
is loaded onto the freshly seeded state. -/
def restartedState : AppState :=
  load_persistence seededState (some (save_persistence mathRefilled)) none

/-- A `students.csv` with 101 well-formed rows with pairwise distinct ids. -/
def manyStudentRows : List (List String) :=
  (List.range 101).map (fun i => [String.mk (List.replicate i 'a'), "Name", "n@x.edu"])

/-- The state after one unregistration (with a succeeding save). -/
def unregisteredState : AppState :=
  (unregister_from_activity seededState "Chess Club" "michael@mergington.edu" true).2

/-- C2 (code_bug): the capacity invariant `len(participants) <= max_participants`
is violated by the program's own operations.  Filling Math Club (capacity 10),
replacing its two seeded members, saving, and restarting loads the saved ten
emails on top of the two re-seeded ones: twelve participants with capacity ten,
because `load_persistence` appends without any capacity check. -/
theorem C2_capacity_violated_after_restart :
    (participantsOf restartedState "Math Club").map List.length = some 12
    ∧ (dictGet? restartedState.activities "Math Club").map Activity.max_participants
        = some 10 := by
  decide

/-- C6 (code_bug): `available_seats` is `100 - len(students)` but is negative
after `load_students` reads a 101-row `students.csv`, because the loader
checks no capacity. -/
theorem C6_available_seats_negative :
    available_seats (load_students seededState (some manyStudentRows) none) = -1
    ∧ available_seats (load_students seededState (some manyStudentRows) none) < 0 := by
  decide

/-- C1 (counterexample): after a failed save, `unregister` re-adds the removed
email at the end, so the participants list is not restored element-for-element:
Chess Club's seeded `[michael, daniel]` comes back as `[daniel, michael]`. -/
theorem C1_unregister_rollback_counterexample :
    (unregister_from_activity seededState "Chess Club" "michael@mergington.edu" false).2
      ≠ seededState
    ∧ participantsOf
        (unregister_from_activity seededState "Chess Club" "michael@mergington.edu" false).2
        "Chess Club"
        = some ["daniel@mergington.edu", "michael@mergington.edu"]
    ∧ participantsOf seededState "Chess Club"
        = some ["michael@mergington.edu", "daniel@mergington.edu"] := by
  decide

/-- C3 (counterexample): the code rejects with `Full` whenever
`len(participants) >= max_participants`, not only at equality.  In the
reachable state `restartedState`, Math Club has 12 participants against a
capacity of 10; the claim's conditions for appending hold (activity exists,
email absent, length does not equal capacity), yet signup returns `Full`
and leaves the state unchanged. -/
theorem C3_full_check_counterexample :
    (participantsOf restartedState "Math Club").map List.length = some 12
    ∧ (dictGet? restartedState.activities "Math Club").map Activity.max_participants
        = some 10
    ∧ (participantsOf restartedState "Math Club").map
        (fun l => l.contains "newkid@mergington.edu") = some false
    ∧ (signup_for_activity restartedState "Math Club" "newkid@mergington.edu" true).1
        = ApiResult.httpError 400 "Activity is full"
    ∧ (signup_for_activity restartedState "Math Club" "newkid@mergington.edu" true).2
        = restartedState := by
  decide

/-- C5 (counterexample): save-then-reload does not reproduce every participants
state, because reload starts from the seeded data: after michael unregisters
from Chess Club (participants `[daniel]`), a save and a fresh-start load yield
`[michael, daniel]` again. -/
theorem C5_roundtrip_counterexample :
    participantsOf unregisteredState "Chess Club" = some ["daniel@mergington.edu"]
    ∧ participantsOf
        (load_persistence seededState (some (save_persistence unregisteredState)) none)
        "Chess Club"
        = some ["michael@mergington.edu", "daniel@mergington.edu"] := by
  decide

/-- C3 (amended): signup validates existence, then membership, then capacity,
in that order; the capacity rejection fires whenever
`len(participants) >= max_participants` (the code tests `>=`, not equality);
on success the email is appended at the end, preserving the existing order. -/
theorem C3_signup_validation_order (st : AppState) (a e : String) :
    (dictGet? st.activities a = none →
      signup_for_activity st a e true = (ApiResult.httpError 404 "Activity not found", st))
    ∧ (∀ act, dictGet? st.activities a = some act →
        (e ∈ act.participants →
          signup_for_activity st a e true
            = (ApiResult.httpError 400 "Student is already signed up", st))
        ∧ (e ∉ act.participants → act.max_participants ≤ act.participants.length →
          signup_for_activity st a e true = (ApiResult.httpError 400 "Activity is full", st))
        ∧ (e ∉ act.participants → act.participants.length < act.max_participants →
          (signup_for_activity st a e true).1
            = ApiResult.ok ("Signed up " ++ e ++ " for " ++ a)
          ∧ participantsOf (signup_for_activity st a e true).2 a
            = some (act.participants ++ [e]))) := by
  refine ⟨?_, ?_⟩
  · intro h
    simp [signup_for_activity, h]
  · intro act h
    refine ⟨?_, ?_, ?_⟩
    · intro hm
      simp [signup_for_activity, h, hm]
    · intro hm hc
      simp [signup_for_activity, h, hm, hc]
    · intro hm hc
      have hc2 : ¬ (act.max_participants ≤ act.participants.length) := by omega
      simp [signup_for_activity, h, hm, hc2, participantsOf, dictGet?_dictSet_self]

/-- Witness for C3: on the seeded state, signing a fresh email up for
Chess Club succeeds and appends it after the two seeded participants. -/
theorem C3_signup_validation_order_wit :
    (signup_for_activity seededState "Chess Club" "newkid@mergington.edu" true).1
      = ApiResult.ok ("Signed up " ++ "newkid@mergington.edu" ++ " for " ++ "Chess Club")
    ∧ participantsOf
        (signup_for_activity seededState "Chess Club" "newkid@mergington.edu" true).2
        "Chess Club"
      = some (chessClub.participants ++ ["newkid@mergington.edu"]) :=
  ((C3_signup_validation_order seededState "Chess Club" "newkid@mergington.edu").2
    chessClub (by decide)).2.2 (by decide) (by decide)

/-- C4: register checks capacity, then duplicate id, then duplicate email,
in that order (the earliest failing check in that order determines the
error), and only when all three pass inserts the record (appended at the
end of the registry, the activities map untouched). -/
theorem C4_register_validation_order (st : AppState) (sid nm em : String) :
    (STUDENT_CAPACITY ≤ st.students.length →
      register_student st sid nm em true
        = (ApiResult.httpError 400 "Student registry is full", st))
    ∧ (st.students.length < STUDENT_CAPACITY → containsKey st.students sid = true →
      register_student st sid nm em true
        = (ApiResult.httpError 400 "Student ID already registered", st))
    ∧ (st.students.length < STUDENT_CAPACITY → containsKey st.students sid = false →
      st.students.any (fun p => p.2.email == em) = true →
      register_student st sid nm em true
        = (ApiResult.httpError 400 "Email already registered", st))
    ∧ (st.students.length < STUDENT_CAPACITY → containsKey st.students sid = false →
      st.students.any (fun p => p.2.email == em) = false →
      (register_student st sid nm em true).1 = ApiResult.ok ("Registered student " ++ sid)
      ∧ (register_student st sid nm em true).2.students
          = st.students ++ [(sid, ⟨sid, nm, em⟩)]
      ∧ (register_student st sid nm em true).2.activities = st.activities) := by
  refine ⟨?_, ?_, ?_, ?_⟩
  · intro h
    simp [register_student, h]
  · intro h hid
    have h2 : ¬ (STUDENT_CAPACITY ≤ st.students.length) := by omega
    simp [register_student, h2, hid]
  · intro h hid hem
    have h2 : ¬ (STUDENT_CAPACITY ≤ st.students.length) := by omega
    simp [register_student, h2, hid, hem]
  · intro h hid hem
    have h2 : ¬ (STUDENT_CAPACITY ≤ st.students.length) := by omega
    simp [register_student, h2, hid, hem, dictSet_of_not_contains _ hid]

/-- Witness for C4: registering a first student on the seeded state succeeds
and appends the record. -/
theorem C4_register_validation_order_wit :
    (register_student seededState "S1" "Ada" "ada@x.edu" true).1
      = ApiResult.ok ("Registered student " ++ "S1")
    ∧ (register_student seededState "S1" "Ada" "ada@x.edu" true).2.students
        = seededState.students ++ [("S1", ⟨"S1", "Ada", "ada@x.edu"⟩)]
    ∧ (register_student seededState "S1" "Ada" "ada@x.edu" true).2.activities
        = seededState.activities :=
  (C4_register_validation_order seededState "S1" "Ada" "ada@x.edu").2.2.2
    (by decide) (by decide) (by decide)

/-- Case analysis on the state `signup` leaves behind: either untouched, or
activity `a` replaced in place by a descriptor differing only in
`participants`. -/
theorem signup_state_cases (st : AppState) (a e : String) (sv : Bool) :
    (signup_for_activity st a e sv).2 = st
    ∨ ∃ act act2, dictGet? st.activities a = some act
        ∧ (signup_for_activity st a e sv).2
            = { st with activities := dictSet st.activities a act2 }
        ∧ act2.description = act.description ∧ act2.schedule = act.schedule
        ∧ act2.max_participants = act.max_participants := by
  cases hg : dictGet? st.activities a with
  | none =>
    left
    simp [signup_for_activity, hg]
  | some act =>
    by_cases hm : e ∈ act.participants
    · left
      simp [signup_for_activity, hg, hm]
    · by_cases hc : act.max_participants ≤ act.participants.length
      · left
        simp [signup_for_activity, hg, hm, hc]
      · cases sv with
        | true =>
          right
          refine ⟨act, { act with participants := act.participants ++ [e] }, rfl, ?_, rfl, rfl, rfl⟩
          simp [signup_for_activity, hg, hm, hc]
        | false =>
          right
          refine ⟨act, { act with participants := removeFirst (act.participants ++ [e]) e }, rfl, ?_, rfl, rfl, rfl⟩
          simp [signup_for_activity, hg, hm, hc, dictSet_dictSet]

/-- Case analysis on the state `unregister` leaves behind. -/
theorem unregister_state_cases (st : AppState) (a e : String) (sv : Bool) :
    (unregister_from_activity st a e sv).2 = st
    ∨ ∃ act act2, dictGet? st.activities a = some act
        ∧ (unregister_from_activity st a e sv).2
            = { st with activities := dictSet st.activities a act2 }
        ∧ act2.description = act.description ∧ act2.schedule = act.schedule
        ∧ act2.max_participants = act.max_participants := by
  cases hg : dictGet? st.activities a with
  | none =>
    left
    simp [unregister_from_activity, hg]
  | some act =>
    by_cases hm : e ∈ act.participants
    · cases sv with
      | true =>
        right
        refine ⟨act, { act with participants := removeFirst act.participants e }, rfl, ?_, rfl, rfl, rfl⟩
        simp [unregister_from_activity, hg, hm]
      | false =>
        right
        refine ⟨act, { act with participants := removeFirst act.participants e ++ [e] }, rfl, ?_, rfl, rfl, rfl⟩
        simp [unregister_from_activity, hg, hm, dictSet_dictSet]
    · left
      simp [unregister_from_activity, hg, hm]

/-- C1 (amended): when the save fails, signup and register restore the exact
pre-call state and surface a 500; unregister restores everything except that
the removed email is re-added at the end of its activity's list: the
participants are restored as a multiset (and hence as a set) but not
necessarily in the original order. -/
theorem C1_rollback_amended (st : AppState) (a e sid nm em : String) :
    (signup_for_activity st a e false).2 = st
    ∧ (register_student st sid nm em false).2 = st
    ∧ (∀ act, dictGet? st.activities a = some act → e ∉ act.participants →
        act.participants.length < act.max_participants →
        (signup_for_activity st a e false).1
          = ApiResult.httpError 500 "Failed to save persistence")
    ∧ (st.students.length < STUDENT_CAPACITY → containsKey st.students sid = false →
        st.students.any (fun p => p.2.email == em) = false →
        (register_student st sid nm em false).1
          = ApiResult.httpError 500 "Failed to save students")
    ∧ (unregister_from_activity st a e false).2.students = st.students
    ∧ (∀ b, b ≠ a →
        dictGet? (unregister_from_activity st a e false).2.activities b
          = dictGet? st.activities b)
    ∧ (∀ act, dictGet? st.activities a = some act → e ∈ act.participants →
        (unregister_from_activity st a e false).1
          = ApiResult.httpError 500 "Failed to save persistence"
        ∧ ∃ act2, dictGet? (unregister_from_activity st a e false).2.activities a
            = some act2
          ∧ act2.participants = removeFirst act.participants e ++ [e]
          ∧ List.Perm act2.participants act.participants
          ∧ act2.description = act.description ∧ act2.schedule = act.schedule
          ∧ act2.max_participants = act.max_participants) := by
  refine ⟨?_, ?_, ?_, ?_, ?_, ?_, ?_⟩
  · cases hg : dictGet? st.activities a with
    | none => simp [signup_for_activity, hg]
    | some act =>
      by_cases hm : e ∈ act.participants
      · simp [signup_for_activity, hg, hm]
      · by_cases hc : act.max_participants ≤ act.participants.length
        · simp [signup_for_activity, hg, hm, hc]
        · simp [signup_for_activity, hg, hm, hc, dictSet_dictSet,
            removeFirst_append_self hm, dictSet_eq_of_get hg]
  · by_cases h : STUDENT_CAPACITY ≤ st.students.length
    · simp [register_student, h]
    · by_cases hid : containsKey st.students sid
      · simp [register_student, h, hid]
      · by_cases hem : st.students.any (fun p => p.2.email == em)
        · simp [register_student, h, hid, hem]
        · simp only [Bool.not_eq_true] at hid hem
          simp [register_student, h, hid, hem, dictSet_of_not_contains _ hid,
            dictDel_append_of_not_contains _ hid]
  · intro act hg hm hc
    have hc2 : ¬ (act.max_participants ≤ act.participants.length) := by omega
    simp [signup_for_activity, hg, hm, hc2]
  · intro h hid hem
    have h2 : ¬ (STUDENT_CAPACITY ≤ st.students.length) := by omega
    simp [register_student, h2, hid, hem]
  · cases hg : dictGet? st.activities a with
    | none => simp [unregister_from_activity, hg]
    | some act =>
      by_cases hm : e ∈ act.participants <;> simp [unregister_from_activity, hg, hm]
  · intro b hb
    cases hg : dictGet? st.activities a with
    | none => simp [unregister_from_activity, hg]
    | some act =>
      by_cases hm : e ∈ act.participants
      · simp [unregister_from_activity, hg, hm, dictSet_dictSet,
          dictGet?_dictSet_ne _ _ hb]
      · simp [unregister_from_activity, hg, hm]
  · intro act hg hm
    refine ⟨by simp [unregister_from_activity, hg, hm], ?_⟩
    refine ⟨{ act with participants := removeFirst act.participants e ++ [e] }, ?_, rfl,
      removeFirst_perm hm, rfl, rfl, rfl⟩
    simp [unregister_from_activity, hg, hm, dictSet_dictSet, dictGet?_dictSet_self]

/-- Witness for C1: on the seeded state, a failed-save signup leaves the state
identical, and a failed-save unregister of michael from Chess Club surfaces a
500 and restores the participants only up to order. -/
theorem C1_rollback_amended_wit :
    (signup_for_activity seededState "Chess Club" "newkid@mergington.edu" false).2
      = seededState
    ∧ (unregister_from_activity seededState "Chess Club" "michael@mergington.edu" false).1
        = ApiResult.httpError 500 "Failed to save persistence"
    ∧ ∃ act2, dictGet?
          (unregister_from_activity seededState "Chess Club" "michael@mergington.edu" false).2.activities
          "Chess Club" = some act2
        ∧ act2.participants
            = removeFirst chessClub.participants "michael@mergington.edu"
              ++ ["michael@mergington.edu"]
        ∧ List.Perm act2.participants chessClub.participants
        ∧ act2.description = chessClub.description
        ∧ act2.schedule = chessClub.schedule
        ∧ act2.max_participants = chessClub.max_participants :=
  ⟨(C1_rollback_amended seededState "Chess Club" "newkid@mergington.edu" "s" "n" "e").1,
   ((C1_rollback_amended seededState "Chess Club" "michael@mergington.edu" "s" "n" "e").2.2.2.2.2.2
      chessClub (by decide) (by decide)).1,
   ((C1_rollback_amended seededState "Chess Club" "michael@mergington.edu" "s" "n" "e").2.2.2.2.2.2
      chessClub (by decide) (by decide)).2⟩

/-- C9: signup and unregister on activity `a` touch at most `a`'s participants
list — the students map, every other activity's binding, and `a`'s own
description, schedule and capacity are unchanged, on success and on every
failure path — and register touches only the students map. -/
theorem C9_frame_effects (st : AppState) (a e sid nm em : String) (sv : Bool) :
    (signup_for_activity st a e sv).2.students = st.students
    ∧ (∀ b, b ≠ a →
        dictGet? (signup_for_activity st a e sv).2.activities b
          = dictGet? st.activities b)
    ∧ (∀ act2, dictGet? (signup_for_activity st a e sv).2.activities a = some act2 →
        ∃ act, dictGet? st.activities a = some act
          ∧ act2.description = act.description ∧ act2.schedule = act.schedule
          ∧ act2.max_participants = act.max_participants)
    ∧ (unregister_from_activity st a e sv).2.students = st.students
    ∧ (∀ b, b ≠ a →
        dictGet? (unregister_from_activity st a e sv).2.activities b
          = dictGet? st.activities b)
    ∧ (∀ act2, dictGet? (unregister_from_activity st a e sv).2.activities a = some act2 →
        ∃ act, dictGet? st.activities a = some act
          ∧ act2.description = act.description ∧ act2.schedule = act.schedule
          ∧ act2.max_participants = act.max_participants)
    ∧ (register_student st sid nm em sv).2.activities = st.activities := by
  refine ⟨?_, ?_, ?_, ?_, ?_, ?_, ?_⟩
  · rcases signup_state_cases st a e sv with h | ⟨act, act2, hg, h, hf⟩ <;> rw [h]
  · intro b hb
    rcases signup_state_cases st a e sv with h | ⟨act, act2, hg, h, hf⟩
    · rw [h]
    · rw [h]
      exact dictGet?_dictSet_ne _ _ hb
  · intro actx hx
    rcases signup_state_cases st a e sv with h | ⟨act, act2, hg, h, hf1, hf2, hf3⟩
    · rw [h] at hx
      exact ⟨actx, hx, rfl, rfl, rfl⟩
    · rw [h] at hx
      simp only [dictGet?_dictSet_self] at hx
      injection hx with hx
      exact ⟨act, hg, hx ▸ hf1, hx ▸ hf2, hx ▸ hf3⟩
  · rcases unregister_state_cases st a e sv with h | ⟨act, act2, hg, h, hf⟩ <;> rw [h]
  · intro b hb
    rcases unregister_state_cases st a e sv with h | ⟨act, act2, hg, h, hf⟩
    · rw [h]
    · rw [h]
      exact dictGet?_dictSet_ne _ _ hb
  · intro actx hx
    rcases unregister_state_cases st a e sv with h | ⟨act, act2, hg, h, hf1, hf2, hf3⟩
    · rw [h] at hx
      exact ⟨actx, hx, rfl, rfl, rfl⟩
    · rw [h] at hx
      simp only [dictGet?_dictSet_self] at hx
      injection hx with hx
      exact ⟨act, hg, hx ▸ hf1, hx ▸ hf2, hx ▸ hf3⟩
  · by_cases h : STUDENT_CAPACITY ≤ st.students.length
    · simp [register_student, h]
    · by_cases hid : containsKey st.students sid
      · simp [register_student, h, hid]
      · by_cases hem : st.students.any (fun p => p.2.email == em)
        · simp [register_student, h, hid, hem]
        · cases sv <;> simp [register_student, h, hid, hem]

/-- Witness for C9: on the seeded state, signing up for Chess Club leaves
Math Club's binding and the students map unchanged. -/
theorem C9_frame_effects_wit :
    (signup_for_activity seededState "Chess Club" "newkid@mergington.edu" true).2.students
      = seededState.students
    ∧ dictGet?
        (signup_for_activity seededState "Chess Club" "newkid@mergington.edu" true).2.activities
        "Math Club"
      = dictGet? seededState.activities "Math Club" :=
  ⟨(C9_frame_effects seededState "Chess Club" "newkid@mergington.edu" "s" "n" "e" true).1,
   (C9_frame_effects seededState "Chess Club" "newkid@mergington.edu" "s" "n" "e" true).2.1
     "Math Club" (by decide)⟩

/-- C8: loading never fails the caller: a missing file leaves the state
unchanged; rows with fewer fields than required (2 for participants, 3 for
students) are skipped rather than aborting; an I/O failure raised after `k`
rows is caught, and the process continues with exactly the rows read so far. -/
theorem C8_load_tolerance (st : AppState) (rows srows : List (List String))
    (k : Nat) (fa : Option Nat) :
    load_persistence st none fa = st
    ∧ load_students st none fa = st
    ∧ load_persistence st (some rows) none
        = load_persistence st (some (rows.filter (fun r => decide (2 ≤ r.length)))) none
    ∧ load_students st (some srows) none
        = load_students st (some (srows.filter (fun r => decide (3 ≤ r.length)))) none
    ∧ load_persistence st (some rows) (some k)
        = load_persistence st (some (rows.take k)) none
    ∧ load_students st (some srows) (some k)
        = load_students st (some (srows.take k)) none := by
  have hid2 : ∀ (s : AppState) (r : List String),
      decide (2 ≤ r.length) = false → loadRow s r = s := by
    intro s r hp
    match r with
    | [] => rfl
    | [x] => rfl
    | x :: y :: t => simp at hp
  have hid3 : ∀ (m : List (String × Student)) (r : List String),
      decide (3 ≤ r.length) = false → loadStudentRow m r = m := by
    intro m r hp
    match r with
    | [] => rfl
    | [x] => rfl
    | [x, y] => rfl
    | x :: y :: z :: t => simp at hp
  refine ⟨rfl, rfl, ?_, ?_, rfl, rfl⟩
  · exact foldl_eq_foldl_filter loadRow _ hid2 rows st
  · simp only [load_students]
    rw [foldl_eq_foldl_filter loadStudentRow _ hid3 srows st.students]

/-- Whether the load loop will act on this row: short rows and rows naming
an unknown activity are no-ops. -/
def knownRow (st0 : AppState) (r : List String) : Bool :=
  match r with
  | n :: _ :: _ => containsKey st0.activities n
  | _ => true

/-- Rows naming an activity that is not a key are no-ops of the load loop:
filtering them out does not change the fold (keys never change during a
load, so the key set referenced is the initial one). -/
theorem loadFold_filter_known (rows : List (List String)) :
    ∀ (st st0 : AppState),
      st.activities.map Prod.fst = st0.activities.map Prod.fst →
      List.foldl loadRow st rows
        = List.foldl loadRow st (rows.filter (knownRow st0)) := by
  induction rows with
  | nil =>
    intro st st0 _
    rfl
  | cons r rows ih =>
    intro st st0 hkeys
    match r with
    | [] =>
      have hfilter : List.filter (knownRow st0) (([] : List String) :: rows)
          = ([] : List String) :: List.filter (knownRow st0) rows := by
        simp [List.filter_cons, knownRow]
      rw [hfilter, List.foldl_cons, List.foldl_cons]
      exact ih (loadRow st []) st0 (by rw [loadRow_keys]; exact hkeys)
    | [x] =>
      have hfilter : List.filter (knownRow st0) ([x] :: rows)
          = [x] :: List.filter (knownRow st0) rows := by
        simp [List.filter_cons, knownRow]
      rw [hfilter, List.foldl_cons, List.foldl_cons]
      exact ih (loadRow st [x]) st0 (by rw [loadRow_keys]; exact hkeys)
    | n :: e :: t =>
      cases hck : containsKey st0.activities n with
      | true =>
        have hfilter : List.filter (knownRow st0) ((n :: e :: t) :: rows)
            = (n :: e :: t) :: List.filter (knownRow st0) rows := by
          simp [List.filter_cons, knownRow, hck]
        rw [hfilter, List.foldl_cons, List.foldl_cons]
        exact ih (loadRow st (n :: e :: t)) st0 (by rw [loadRow_keys]; exact hkeys)
      | false =>
        have hck1 : containsKey st.activities n = false := by
          cases hc2 : containsKey st.activities n with
          | false => rfl
          | true =>
            rw [containsKey_iff, hkeys, ← containsKey_iff, hck] at hc2
            exact Bool.noConfusion hc2
        have hnone : dictGet? st.activities n = none :=
          (dictGet?_eq_none_iff _ _).mpr hck1
        have hload : loadRow st (n :: e :: t) = st := by
          simp [loadRow, hnone]
        have hfilter : List.filter (knownRow st0) ((n :: e :: t) :: rows)
            = List.filter (knownRow st0) rows := by
          simp [List.filter_cons, knownRow, hck]
        rw [hfilter, List.foldl_cons, hload]
        exact ih st st0 hkeys

/-- C10: the load loop silently drops every row whose activity name is not a
key of the map it starts from (in the program, the seeded activities map),
adds no new keys, and never appends an email that is already present, so it
introduces no duplicates in any activity's participants. -/
theorem C10_load_drops_unknown_no_dups (st : AppState) (rows : List (List String)) :
    load_persistence st (some rows) none
      = load_persistence st (some (rows.filter (knownRow st))) none
    ∧ (∀ b, containsKey st.activities b = false →
        dictGet? (load_persistence st (some rows) none).activities b = none)
    ∧ (∀ a act act2, dictGet? st.activities a = some act → act.participants.Nodup →
        dictGet? (load_persistence st (some rows) none).activities a = some act2 →
        act2.participants.Nodup) := by
  refine ⟨?_, ?_, ?_⟩
  · exact loadFold_filter_known rows st st rfl
  · intro b hb
    exact loadFold_get_none rows st ((dictGet?_eq_none_iff _ _).mpr hb)
  · intro a act act2 hg hnd hx
    rcases loadFold_get rows st act hg with ⟨act2x, h1, h2, _⟩
    simp only [load_persistence] at hx
    rw [h1] at hx
    injection hx with hx
    rw [← hx, h2]
    exact foldl_addE_nodup _ hnd

/-- Rows used by the C10 witness: one row for an unknown activity, one
duplicate of a seeded Chess Club participant. -/
def c10Rows : List (List String) :=
  [["Knitting Club", "zoe@x.edu"], ["Chess Club", "michael@mergington.edu"]]

/-- Witness for C10: the unknown activity gains no binding, and Chess Club's
participants stay duplicate-free. -/
theorem C10_load_drops_unknown_no_dups_wit :
    dictGet? (load_persistence seededState (some c10Rows) none).activities
      "Knitting Club" = none
    ∧ chessClub.participants.Nodup :=
  ⟨(C10_load_drops_unknown_no_dups seededState c10Rows).2.1 "Knitting Club" (by decide),
   (C10_load_drops_unknown_no_dups seededState c10Rows).2.2 "Chess Club" chessClub
     chessClub (by decide) (by decide) (by decide)⟩

/-- C7: `GET /students` returns the registry values sorted by name ascending
(code-point comparison), and the sort is stable: for every name, the students
carrying it appear in their original insertion (registration) order — the
filtered subsequence for each name is unchanged. -/
theorem C7_list_students_sorted_stable (st : AppState) :
    List.Sorted (fun a b : Student => a.name ≤ b.name) (list_students st)
    ∧ ∀ nm : String,
        (list_students st).filter (fun s => s.name == nm)
          = (st.students.map Prod.snd).filter (fun s => s.name == nm) := by
  constructor
  · haveI ht : IsTotal Student (fun a b : Student => a.name ≤ b.name) :=
      ⟨fun a b => le_total a.name b.name⟩
    haveI htr : IsTrans Student (fun a b : Student => a.name ≤ b.name) :=
      ⟨fun a b c hab hbc => le_trans hab hbc⟩
    exact List.sorted_insertionSort _ _
  · intro nm
    have hmem : ∀ s ∈ (st.students.map Prod.snd).filter (fun s => s.name == nm),
        s.name = nm := by
      intro s hs
      simpa using (List.mem_filter.mp hs).2
    have hpair : ((st.students.map Prod.snd).filter (fun s => s.name == nm)).Pairwise
        (fun a b : Student => a.name ≤ b.name) := by
      apply List.pairwise_of_forall_mem_list
      intro a ha b hb
      rw [hmem a ha, hmem b hb]
    have hsub : List.Sublist
        ((st.students.map Prod.snd).filter (fun s => s.name == nm))
        (List.insertionSort (fun a b : Student => a.name ≤ b.name)
          (st.students.map Prod.snd)) :=
      List.sublist_insertionSort hpair (List.filter_sublist _)
    have hsub2 := hsub.filter (fun s => s.name == nm)
    have hself : ((st.students.map Prod.snd).filter (fun s => s.name == nm)).filter
        (fun s => s.name == nm)
        = (st.students.map Prod.snd).filter (fun s => s.name == nm) := by
      apply List.filter_eq_self.mpr
      intro a ha
      exact (List.mem_filter.mp ha).2
    rw [hself] at hsub2
    have hperm := (List.perm_insertionSort
        (fun a b : Student => a.name ≤ b.name) (st.students.map Prod.snd)).filter
        (fun s => s.name == nm)
    exact (hsub2.eq_of_length hperm.length_eq.symm).symm

/-- C5 (amended): the save/reload round trip goes through a fresh start, so
the reload begins from the seeded activities.  For states whose activity
keys are the seeded ones and whose participants lists are duplicate-free
extensions of the seeded lists (every state the program's own operations
produce without unregistering a seeded member), persisting and reloading
reproduces every activity's participants exactly — same emails, same order.
States that dropped or reordered seeded participants are not reproduced
(see the counterexample). -/
theorem C5_roundtrip_amended (st : AppState)
    (hkeys : st.activities.map Prod.fst = seededActivities.map Prod.fst)
    (hpre : ∀ p ∈ st.activities,
      ((dictGet? seededActivities p.1).map
        (fun sact => sact.participants.isPrefixOf p.2.participants)) = some true
      ∧ p.2.participants.Nodup) :
    ∀ a, participantsOf
        (load_persistence seededState (some (save_persistence st)) none) a
      = participantsOf st a := by
  intro a
  cases hg : dictGet? st.activities a with
  | none =>
    have hc : containsKey st.activities a = false := (dictGet?_eq_none_iff _ _).mp hg
    have hcs : containsKey seededActivities a = false := by
      cases h2 : containsKey seededActivities a with
      | false => rfl
      | true =>
        rw [containsKey_iff] at h2
        rw [← hkeys] at h2
        rw [← containsKey_iff, hc] at h2
        exact Bool.noConfusion h2
    have hs : dictGet? seededState.activities a = none :=
      (dictGet?_eq_none_iff _ _).mpr hcs
    have hnone := loadFold_get_none (save_persistence st) seededState hs
    simp [participantsOf, load_persistence, hnone, hg]
  | some act =>
    have hmem : (a, act) ∈ st.activities := dictGet?_mem hg
    rcases hpre (a, act) hmem with ⟨hpref, hnd⟩
    cases hgs : dictGet? seededActivities a with
    | none =>
      rw [hgs] at hpref
      simp at hpref
    | some sact =>
      rw [hgs] at hpref
      simp only [Option.map_some'] at hpref
      injection hpref with hpref
      rcases isPrefixOf_exists hpref with ⟨r, hr⟩
      have hndkeys : (st.activities.map Prod.fst).Nodup := by
        rw [hkeys]
        decide
      have hemails : emailsFor a (save_persistence st) = act.participants :=
        emailsFor_save hndkeys hg
      have hgs2 : dictGet? seededState.activities a = some sact := hgs
      rcases loadFold_get (save_persistence st) seededState sact hgs2 with
        ⟨act2, h1, h2, _⟩
      have hfold : List.foldl addE sact.participants (emailsFor a (save_persistence st))
          = act.participants := by
        rw [hemails, hr, List.foldl_append,
          foldl_addE_of_subset (fun x hx => hx)]
        exact foldl_addE_of_nodup (by rw [← hr]; exact hnd)
      simp [participantsOf, load_persistence, h1, hg, h2, hfold]

/-- The state after one successful signup on the seeded data, used by the
C5 witness. -/
def signupState : AppState :=
  (signup_for_activity seededState "Chess Club" "newkid@mergington.edu" true).2

/-- Witness for C5 (amended): after a signup extends Chess Club, save and
fresh-start reload reproduce its participants exactly. -/
theorem C5_roundtrip_amended_wit :
    participantsOf
      (load_persistence seededState (some (save_persistence signupState)) none)
      "Chess Club"
      = participantsOf signupState "Chess Club" :=
  C5_roundtrip_amended signupState (by decide) (by decide) "Chess Club"
